import Mathlib

set_option maxHeartbeats 1000000

/-!
Verification development for the weekly-report generator core:
the cursor-paginated fetcher, the depth-bounded block-tree materializer
(`src/client.py`), the three week-numbering policies (`src/date_utils.py`)
and the weekly aggregator (`src/weekly_manager.py`), shallowly embedded in
Lean 4 together with theorems about their behaviour.
-/

/-! ## Date model

Python's `datetime.date` is a proleptic-Gregorian calendar date.  We embed it
as a triple of naturals together with the standard ordinal map
(`datetime.date.toordinal`, day 1 = 0001-01-01) and Python's `weekday()`
(Monday = 0).  Comparison and subtraction of valid dates in Python agree with
comparison and subtraction of their ordinals, which is how we embed them.
-/

structure PyDate where
  year : Nat
  month : Nat
  day : Nat
deriving DecidableEq, Repr

/-- Gregorian leap-year test (`calendar.isleap`). -/
def isLeap (y : Nat) : Bool :=
  (y % 4 == 0 && y % 100 != 0) || y % 400 == 0

/-- Number of days in a month (Python `calendar.monthrange` semantics). -/
def daysInMonth (y m : Nat) : Nat :=
  if m = 2 then (if isLeap y then 29 else 28)
  else if m = 4 ∨ m = 6 ∨ m = 9 ∨ m = 11 then 30
  else 31

/-- The dates `datetime.date` can actually represent (its constructor
validates year, month and day; we do not bound the year above). -/
def ValidDate (d : PyDate) : Prop :=
  1 ≤ d.year ∧ 1 ≤ d.month ∧ d.month ≤ 12 ∧ 1 ≤ d.day ∧ d.day ≤ daysInMonth d.year d.month

instance (d : PyDate) : Decidable (ValidDate d) := by
  unfold ValidDate; infer_instance

/-- Days in the months of year `y` strictly before month `m`
(CPython's `_days_before_month`: a cumulative table plus a leap-day
adjustment for months after February). -/
def daysBeforeMonth (y m : Nat) : Nat :=
  let f : Nat := if isLeap y then 1 else 0
  match m with
  | 1 => 0
  | 2 => 31
  | 3 => 59 + f
  | 4 => 90 + f
  | 5 => 120 + f
  | 6 => 151 + f
  | 7 => 181 + f
  | 8 => 212 + f
  | 9 => 243 + f
  | 10 => 273 + f
  | 11 => 304 + f
  | 12 => 334 + f
  | _ => 0

/-- Days strictly before January 1 of year `y` (year 1 gives 0). -/
def daysBeforeYear (y : Nat) : Nat :=
  365 * (y - 1) + (y - 1) / 4 + (y - 1) / 400 - (y - 1) / 100

/-- `datetime.date.toordinal`: 0001-01-01 is day 1. -/
def toordinal (d : PyDate) : Nat :=
  daysBeforeYear d.year + daysBeforeMonth d.year d.month + d.day

/-- `datetime.date.weekday`: Monday = 0, ..., Sunday = 6.
0001-01-01 is a Monday. -/
def weekday (d : PyDate) : Nat :=
  (toordinal d + 6) % 7

/-- The day after `d` (what `d + timedelta(days=1)` yields). -/
def nextDay (d : PyDate) : PyDate :=
  if d.day < daysInMonth d.year d.month then ⟨d.year, d.month, d.day + 1⟩
  else if d.month < 12 then ⟨d.year, d.month + 1, 1⟩
  else ⟨d.year + 1, 1, 1⟩

/-- `d + timedelta(days=k)` for `k ≥ 0`. -/
def addDays (d : PyDate) : Nat → PyDate
  | 0 => d
  | k + 1 => nextDay (addDays d k)

lemma daysInMonth_ge (y m : Nat) : 28 ≤ daysInMonth y m := by
  unfold daysInMonth
  split
  · split <;> omega
  · split <;> omega

lemma isLeap_iff (y : Nat) :
    isLeap y = true ↔ ((y % 4 = 0 ∧ y % 100 ≠ 0) ∨ y % 400 = 0) := by
  simp [isLeap]

lemma daysBeforeMonth_succ (y m : Nat) (h1 : 1 ≤ m) (h2 : m ≤ 11) :
    daysBeforeMonth y (m + 1) = daysBeforeMonth y m + daysInMonth y m := by
  interval_cases m <;> by_cases hl : isLeap y <;>
    simp [daysBeforeMonth, daysInMonth, hl]

lemma daysBeforeYear_succ (y : Nat) (hy : 1 ≤ y) :
    daysBeforeYear (y + 1) = daysBeforeYear y + 365 + (if isLeap y then 1 else 0) := by
  have hiff := isLeap_iff y
  by_cases hl : isLeap y
  · rw [if_pos hl]
    have hc := hiff.mp hl
    unfold daysBeforeYear
    omega
  · rw [if_neg hl]
    have hc : ¬ ((y % 4 = 0 ∧ y % 100 ≠ 0) ∨ y % 400 = 0) := fun h => hl (hiff.mpr h)
    push_neg at hc
    unfold daysBeforeYear
    omega

lemma toordinal_mk (y m dd : Nat) :
    toordinal ⟨y, m, dd⟩ = daysBeforeYear y + daysBeforeMonth y m + dd := rfl

lemma toordinal_nextDay (d : PyDate) (hv : ValidDate d) :
    toordinal (nextDay d) = toordinal d + 1 := by
  obtain ⟨y, m, dd⟩ := d
  obtain ⟨hy, hm1, hm12, hd1, hd2⟩ := hv
  simp only at hy hm1 hm12 hd1 hd2
  by_cases h1 : dd < daysInMonth y m
  · have hnd : nextDay ⟨y, m, dd⟩ = ⟨y, m, dd + 1⟩ := by
      simp [nextDay, h1]
    rw [hnd, toordinal_mk, toordinal_mk]
    omega
  · have hday : dd = daysInMonth y m := by omega
    by_cases h2 : m < 12
    · have hnd : nextDay ⟨y, m, dd⟩ = ⟨y, m + 1, 1⟩ := by
        simp [nextDay, h1, h2]
      rw [hnd, toordinal_mk, toordinal_mk,
        daysBeforeMonth_succ y m hm1 (by omega)]
      omega
    · have hm : m = 12 := by omega
      subst hm
      have hnd : nextDay ⟨y, 12, dd⟩ = ⟨y + 1, 1, 1⟩ := by
        simp [nextDay, h1]
      rw [hnd, toordinal_mk, toordinal_mk]
      have h334 : daysBeforeMonth y 12 = 334 + (if isLeap y then 1 else 0) := by
        by_cases hl : isLeap y <;> simp [daysBeforeMonth, hl]
      have h31 : daysInMonth y 12 = 31 := by simp [daysInMonth]
      have hdb1 : daysBeforeMonth (y + 1) 1 = 0 := by simp [daysBeforeMonth]
      rw [hdb1, daysBeforeYear_succ y hy, h334]
      rw [h31] at hday
      by_cases hl : isLeap y <;> simp only [hl, if_true, if_false] <;> omega

lemma validDate_mk (y m dd : Nat) :
    ValidDate ⟨y, m, dd⟩ ↔
      (1 ≤ y ∧ 1 ≤ m ∧ m ≤ 12 ∧ 1 ≤ dd ∧ dd ≤ daysInMonth y m) := Iff.rfl

lemma validDate_nextDay (d : PyDate) (hv : ValidDate d) : ValidDate (nextDay d) := by
  obtain ⟨y, m, dd⟩ := d
  obtain ⟨hy, hm1, hm12, hd1, hd2⟩ := hv
  simp only at hy hm1 hm12 hd1 hd2
  by_cases h1 : dd < daysInMonth y m
  · have hnd : nextDay ⟨y, m, dd⟩ = ⟨y, m, dd + 1⟩ := by
      simp [nextDay, h1]
    rw [hnd, validDate_mk]
    omega
  · by_cases h2 : m < 12
    · have hnd : nextDay ⟨y, m, dd⟩ = ⟨y, m + 1, 1⟩ := by
        simp [nextDay, h1, h2]
      rw [hnd, validDate_mk]
      have := daysInMonth_ge y (m + 1)
      omega
    · have hm : m = 12 := by omega
      subst hm
      have hnd : nextDay ⟨y, 12, dd⟩ = ⟨y + 1, 1, 1⟩ := by
        simp [nextDay, h1]
      rw [hnd, validDate_mk]
      have := daysInMonth_ge (y + 1) 1
      omega

lemma addDays_spec (d : PyDate) (hv : ValidDate d) (k : Nat) :
    ValidDate (addDays d k) ∧ toordinal (addDays d k) = toordinal d + k := by
  induction k with
  | zero => exact ⟨hv, rfl⟩
  | succ n ih =>
    refine ⟨validDate_nextDay _ ih.1, ?_⟩
    show toordinal (nextDay (addDays d n)) = _
    rw [toordinal_nextDay _ ih.1, ih.2]
    omega

/-! ## `src/date_utils.py` — `DateUtils`

The week-numbering policies.  Python's global class attribute
`DateUtils.PROJECT_START_DATE` (settable via `set_project_start_date`) is
threaded through as an explicit `anchor` parameter; its default value is kept
as `PROJECT_START_DATE` below.  Python date comparison and `timedelta`
subtraction on valid dates agree with comparison and subtraction of
`toordinal` values, which is how they are embedded.
-/

namespace DateUtils

/-- `DateUtils.PROJECT_START_DATE` default: 2025-07-01. -/
def PROJECT_START_DATE : PyDate := ⟨2025, 7, 1⟩

/-- Split a character list at every occurrence of `c`
(the behaviour of Python's `str.split(c)`). -/
def splitOnChar (c : Char) : List Char → List (List Char)
  | [] => [[]]
  | x :: xs =>
    let r := splitOnChar c xs
    if x = c then [] :: r
    else
      match r with
      | [] => [[x]]
      | g :: gs => (x :: g) :: gs

/-- Numeric value of a digit string; `none` if empty or not all digits. -/
def charsToNat (cs : List Char) : Option Nat :=
  if cs.isEmpty then none
  else if cs.all Char.isDigit then
    some (cs.foldl (fun n c => n * 10 + (c.toNat - 48)) 0)
  else none

/-- `DateUtils.parse_notion_date`: take the text before the first `T`, then
parse it as `strptime("%Y-%m-%d")` does (`%Y` is exactly four digits, `%m`
and `%d` are one or two digits) and validate it as `datetime.date` does.
Any failure yields `none`. -/
def parse_notion_date (s : String) : Option PyDate :=
  if s = "" then none
  else
    match splitOnChar '-' (s.data.takeWhile (fun c => c ≠ 'T')) with
    | [ys, ms, ds] =>
      match charsToNat ys, charsToNat ms, charsToNat ds with
      | some y, some m, some dd =>
        if ys.length = 4 ∧ ms.length ≤ 2 ∧ ds.length ≤ 2 ∧
            1 ≤ y ∧ 1 ≤ m ∧ m ≤ 12 ∧ 1 ≤ dd ∧ dd ≤ daysInMonth y m
        then some ⟨y, m, dd⟩
        else none
      | _, _, _ => none
    | _ => none

/-- The body of the `while first_monday.weekday() != 0` loop of
`get_week_number_monthly`.  One fuel unit per iteration; the loop provably
terminates within 7 iterations (a Monday occurs among days 1–7), so any
fuel ≥ 7 yields the loop's result.  The `month` comparison branch of the
source is kept even though `replace(day=...)` never changes the month. -/
def firstMondayLoop (first_day target : PyDate) : Nat → PyDate → PyDate
  | 0, fm => fm
  | fuel + 1, fm =>
    if weekday fm = 0 then fm
    else
      let fm' : PyDate := ⟨fm.year, fm.month, fm.day + 1⟩
      if fm'.month ≠ target.month then first_day
      else firstMondayLoop first_day target fuel fm'

/-- The `first_monday` value computed inside `get_week_number_monthly`. -/
def first_monday (target_date : PyDate) : PyDate :=
  let first_day : PyDate := ⟨target_date.year, target_date.month, 1⟩
  firstMondayLoop first_day target_date 31 first_day

/-- `DateUtils.get_week_number_monthly`. -/
def get_week_number_monthly (target_date : PyDate) : Nat :=
  let fm := first_monday target_date
  if toordinal target_date < toordinal fm then 1
  else (toordinal target_date - toordinal fm) / 7 + 1

/-- `DateUtils.get_week_number_project_based`, with the project start date
as an explicit `anchor` argument. -/
def get_week_number_project_based (anchor target_date : PyDate) : Nat :=
  if toordinal target_date < toordinal anchor then 0
  else (toordinal target_date - toordinal anchor) / 7 + 1

/-- ISO weekday: Monday = 1, ..., Sunday = 7. -/
def isoWeekday (d : PyDate) : Nat := weekday d + 1

/-- Day-of-year ordinal, 1-based. -/
def dayOfYear (d : PyDate) : Nat := daysBeforeMonth d.year d.month + d.day

/-- Number of ISO weeks in ISO year `y` (53 when the year starts or ends on
a Thursday, else 52). -/
def isoWeeksInYear (y : Nat) : Nat :=
  if isoWeekday ⟨y, 1, 1⟩ = 4 ∨ isoWeekday ⟨y, 12, 31⟩ = 4 then 53 else 52

/-- `datetime.date.isocalendar`, restricted to the `(iso_year, iso_week)`
pair that `get_week_number_iso` returns (the standard ISO-8601 week-date
algorithm). -/
def isocalendar (d : PyDate) : Nat × Nat :=
  let w := (dayOfYear d + 10 - isoWeekday d) / 7
  if w = 0 then (d.year - 1, isoWeeksInYear (d.year - 1))
  else if w = 53 ∧ isoWeeksInYear d.year = 52 then (d.year + 1, 1)
  else (d.year, w)

/-- `DateUtils.get_week_number_iso`: the `(iso_year, iso_week)` pair. -/
def get_week_number_iso (target_date : PyDate) : Nat × Nat :=
  isocalendar target_date

/-- `DateUtils.format_korean_date` (e.g. `8월 1일`). -/
def format_korean_date (d : PyDate) : String :=
  toString d.month ++ "월 " ++ toString d.day ++ "일"

/-- The weekday names used by `format_korean_date_with_weekday`. -/
def koreanWeekdays : List String := ["월", "화", "수", "목", "금", "토", "일"]

/-- `DateUtils.format_korean_date_with_weekday` (e.g. `8월 1일 (월)`). -/
def format_korean_date_with_weekday (d : PyDate) : String :=
  toString d.month ++ "월 " ++ toString d.day ++ "일 ("
    ++ koreanWeekdays.getD (weekday d) "" ++ ")"

/-- `DateUtils.get_date_info`: Korean date text plus the week number under
the selected calculation method (`"monthly"`, `"iso"`, anything else means
`"project"`).  A missing or unparseable date yields `("날짜 없음", 0)`. -/
def get_date_info (anchor : PyDate) (date_str : String)
    (week_calculation_method : String) : String × Nat :=
  match parse_notion_date date_str with
  | none => ("날짜 없음", 0)
  | some parsed_date =>
    let korean_date := format_korean_date_with_weekday parsed_date
    if week_calculation_method = "monthly" then
      (korean_date, get_week_number_monthly parsed_date)
    else if week_calculation_method = "iso" then
      (korean_date, (get_week_number_iso parsed_date).2)
    else
      (korean_date, get_week_number_project_based anchor parsed_date)

/-- The dictionary returned by `DateUtils.get_week_summary`. -/
structure WeekSummary where
  week_number : Nat
  start_date : Option PyDate
  end_date : Option PyDate
  korean_range : String
deriving DecidableEq, Repr

/-- `DateUtils.get_week_summary`, with the project start date as an explicit
`anchor` argument.  Week numbers are naturals here, so the source's
`week_number <= 0` test is `week_number = 0`. -/
def get_week_summary (anchor : PyDate) (week_number : Nat) : WeekSummary :=
  if week_number = 0 then
    ⟨week_number, none, none, "유효하지 않은 주차"⟩
  else
    let week_start := addDays anchor (7 * (week_number - 1))
    let week_end := addDays week_start 6
    ⟨week_number, some week_start, some week_end,
      format_korean_date week_start ++ " ~ " ++ format_korean_date week_end⟩

end DateUtils

/-! ## `src/client.py` — `NotionClient`

Pagination and the recursive block tree.  A paged listing is embedded as the
sequence of page responses the Notion API would serve for the successive
cursors one run of the loop requests: requesting the first page yields the
head, requesting the `next_cursor` of page `i` yields page `i + 1`.  Each
response is either a page (`results`, `has_more`) or a raised
`NotionAPIError`.  A block dict whose `children` key was never assigned is
identified with one whose `children` list is empty, which is how every
consumer (`render_blocks` uses `block.get("children", [])`) reads it.
-/

/-- `NotionAPIError(status_code, message)` from `src/exceptions.py`. -/
structure NotionAPIError where
  status_code : Nat
  message : String
deriving DecidableEq, Repr

/-- One page of an API listing: the `results` list and the `has_more` flag. -/
structure ApiPage (α : Type) where
  results : List α
  has_more : Bool
deriving DecidableEq, Repr

/-- A Notion block: id, type tag, `has_children` flag, an opaque
type-specific payload, and the lazily attached `children` list. -/
inductive Block where
  | mk : String → String → Bool → String → List Block → Block
deriving Repr

def Block.id : Block → String
  | .mk i _ _ _ _ => i

def Block.type : Block → String
  | .mk _ t _ _ _ => t

def Block.has_children : Block → Bool
  | .mk _ _ h _ _ => h

def Block.payload : Block → String
  | .mk _ _ _ p _ => p

def Block.children : Block → List Block
  | .mk _ _ _ _ c => c

/-- `block["children"] = cs`. -/
def Block.setChildren : Block → List Block → Block
  | .mk i t h p _, cs => .mk i t h p cs

/-- The page responses the content store serves for one block id's
`blocks/{id}/children` listing. -/
def BlockStore : Type := String → List (Except NotionAPIError (ApiPage Block))

/-- The `for block in data["results"]` body of `get_block_tree`: recurse
into a child (via `recur`) exactly when it is flagged `has_children` and
`current_depth < max_depth - 1`; a block that is not recursed into is kept
unchanged. -/
def processResults (recur : String → List Block) (max_depth current_depth : Nat) :
    List Block → List Block
  | [] => []
  | b :: bs =>
    (if b.has_children = true ∧ current_depth < max_depth - 1
      then b.setChildren (recur b.id)
      else b) :: processResults recur max_depth current_depth bs

/-- The `while True` pagination loop of `get_block_tree`: a raised
`NotionAPIError` is caught, logged and `break`s out, returning the children
accumulated so far; otherwise the page's results are processed and appended,
and the loop continues exactly when `has_more` is true. -/
def pageLoop (recur : String → List Block) (max_depth current_depth : Nat) :
    List (Except NotionAPIError (ApiPage Block)) → List Block → List Block
  | [], acc => acc
  | .error _ :: _, acc => acc
  | .ok page :: rest, acc =>
    let acc' := acc ++ processResults recur max_depth current_depth page.results
    if page.has_more then pageLoop recur max_depth current_depth rest acc'
    else acc'

/-- `get_block_tree`, with the remaining depth budget
`max_depth - current_depth` made a structural fuel argument: fuel 0 is
exactly the `current_depth >= max_depth` early return. -/
def getBlockTreeAux (store : BlockStore) (max_depth : Nat) :
    Nat → Nat → String → List Block
  | 0, _, _ => []
  | fuel + 1, current_depth, block_id =>
    pageLoop (fun cid => getBlockTreeAux store max_depth fuel (current_depth + 1) cid)
      max_depth current_depth (store block_id) []

/-- `NotionClient.get_block_tree(block_id, max_depth, current_depth)`. -/
def get_block_tree (store : BlockStore) (block_id : String)
    (max_depth : Nat) (current_depth : Nat) : List Block :=
  getBlockTreeAux store max_depth (max_depth - current_depth) current_depth block_id

/-- The `while True` loop shared by `query_database_all` and
`get_page_content_flat`: extend the accumulator with each page's results,
stop when `has_more` is false, and let a raised `NotionAPIError` propagate
(no `try` here). -/
def collectAllPages {α : Type} :
    List (Except NotionAPIError (ApiPage α)) → List α →
      Except NotionAPIError (List α)
  | [], acc => .ok acc
  | .error e :: _, _ => .error e
  | .ok page :: rest, acc =>
    let acc' := acc ++ page.results
    if page.has_more then collectAllPages rest acc' else .ok acc'

/-- `NotionClient.query_database_all`: exhaust the database query listing. -/
def query_database_all {α : Type}
    (pages : List (Except NotionAPIError (ApiPage α))) :
    Except NotionAPIError (List α) :=
  collectAllPages pages []

/-- `NotionClient.get_page_content_flat`: exhaust one page's top-level
block listing. -/
def get_page_content_flat
    (pages : List (Except NotionAPIError (ApiPage Block))) :
    Except NotionAPIError (List Block) :=
  collectAllPages pages []

/-- A well-formed finite paged listing: every page before the last has
`has_more = true` and the last page has `has_more = false` (the shape the
API serves when the client follows `next_cursor` to exhaustion). -/
def chainedPages {α : Type} : List (ApiPage α) → Bool
  | [] => true
  | [p] => !p.has_more
  | p :: rest => p.has_more && chainedPages rest

/-! ## `src/renderers.py` (`NotionPageFormatter.get_page_date`) and
`src/weekly_manager.py` — `WeeklyManager.analyze_pages_by_week`

A page's `properties` is an insertion-ordered mapping from property name to
a property value; `get_page_date` only looks at the `type` tag and the
`date` payload, so only those are embedded (`date = none` covers both a
missing and a falsy `None` payload).  The aggregator's
`defaultdict(list)` keyed by week number is embedded as an
insertion-ordered association list; `weekly_pages.clear()` is
`clearBuckets`.
-/

/-- The slice of a Notion page property that `get_page_date` inspects:
its `type` tag and, for date properties, the `start` string of its `date`
payload. -/
structure PageProp where
  type : String
  date_start : Option String
deriving DecidableEq, Repr

/-- `NotionPageFormatter.get_page_date`: the `start` of the first property
whose type is `date` with a truthy `date` payload, else `None`. -/
def get_page_date : List (String × PageProp) → Option String
  | [] => none
  | (_, prop) :: rest =>
    if prop.type = "date" ∧ prop.date_start.isSome then prop.date_start
    else get_page_date rest

/-- The `_date_info` dict attached to a classified page. -/
structure DateInfo where
  original_date : String
  korean_date : String
  week_number : Nat
  week_summary : Option DateUtils.WeekSummary
deriving DecidableEq, Repr

/-- A page as the aggregator sees it: id, ordered properties, and the
`_date_info` entry once classification attached it. -/
structure NotionPage where
  id : String
  properties : List (String × PageProp)
  date_info : Option DateInfo := none
deriving DecidableEq, Repr

/-- The aggregator's `weekly_pages` mapping, insertion-ordered. -/
def Buckets : Type := List (Nat × List NotionPage)

/-- `self.weekly_pages[week_num].append(page)` on a `defaultdict(list)`:
append to the existing bucket, or create it at the end. -/
def bucketAdd (m : Buckets) (w : Nat) (page : NotionPage) : Buckets :=
  match m with
  | [] => [(w, [page])]
  | (k, l) :: rest =>
    if k = w then (k, l ++ [page]) :: rest else (k, l) :: bucketAdd rest w page

/-- Look a bucket up; a never-populated week reads as the empty list. -/
def bucketGet (m : Buckets) (w : Nat) : List NotionPage :=
  match m with
  | [] => []
  | (k, l) :: rest => if k = w then l else bucketGet rest w

/-- `self.weekly_pages.clear()`. -/
def clearBuckets (_ : Buckets) : Buckets := []

namespace WeeklyManager

/-- The per-page body of `analyze_pages_by_week`'s single pass. -/
def analyzeStep (anchor : PyDate) (week_calculation_method : String)
    (m : Buckets) (page : NotionPage) : Buckets :=
  match get_page_date page.properties with
  | none => m
  | some page_date =>
    if page_date = "" then m
    else
      let info := DateUtils.get_date_info anchor page_date week_calculation_method
      let week_summary :=
        if week_calculation_method = "project"
          then some (DateUtils.get_week_summary anchor info.2)
          else none
      let page' := { page with
        date_info := some ⟨page_date, info.1, info.2, week_summary⟩ }
      bucketAdd m info.2 page'

/-- `WeeklyManager.analyze_pages_by_week(pages)`: clear `weekly_pages`,
then one pass appending each dated page to its week bucket.  `prior` is the
mapping left by any previous run; the method's first statement clears it. -/
def analyze_pages_by_week (anchor : PyDate) (week_calculation_method : String)
    (prior : Buckets) (pages : List NotionPage) : Buckets :=
  pages.foldl (analyzeStep anchor week_calculation_method) (clearBuckets prior)

/-- A page's date string is truthy: a date property was found and its
`start` string is non-empty (`if page_date:`). -/
def truthyDate (page : NotionPage) : Bool :=
  match get_page_date page.properties with
  | none => false
  | some s => !(s = "")

/-- The week number `analyze_pages_by_week` computes for a page (only
meaningful when `truthyDate`). -/
def weekOf (anchor : PyDate) (week_calculation_method : String)
    (page : NotionPage) : Nat :=
  match get_page_date page.properties with
  | none => 0
  | some s => (DateUtils.get_date_info anchor s week_calculation_method).2

/-- The page as stored into its bucket: with `_date_info` attached. -/
def attachInfo (anchor : PyDate) (week_calculation_method : String)
    (page : NotionPage) : NotionPage :=
  match get_page_date page.properties with
  | none => page
  | some page_date =>
    let info := DateUtils.get_date_info anchor page_date week_calculation_method
    let week_summary :=
      if week_calculation_method = "project"
        then some (DateUtils.get_week_summary anchor info.2)
        else none
    { page with date_info := some ⟨page_date, info.1, info.2, week_summary⟩ }

/-- Specification-side description of one bucket: the truthy-dated input
pages classified to week `w`, in input order, with `_date_info` attached. -/
def classifiedWeek (anchor : PyDate) (week_calculation_method : String)
    (pages : List NotionPage) (w : Nat) : List NotionPage :=
  (pages.filter
      (fun p => truthyDate p && (weekOf anchor week_calculation_method p == w))).map
    (attachInfo anchor week_calculation_method)

/-- Total number of page occurrences stored across all buckets. -/
def totalBucketCount (m : Buckets) : Nat :=
  (m.map (fun kv => kv.2.length)).sum

end WeeklyManager

/-! ## Helper lemmas about the aggregator -/

namespace WeeklyManager

lemma bucketGet_bucketAdd (w w' : Nat) (p : NotionPage) :
    ∀ m : Buckets, bucketGet (bucketAdd m w' p) w
      = bucketGet m w ++ (if w = w' then [p] else []) := by
  intro m
  induction m with
  | nil =>
    by_cases h : w' = w
    · simp [bucketAdd, bucketGet, h]
    · simp [bucketAdd, bucketGet, h]
      omega
  | cons kv rest ih =>
    obtain ⟨k, l⟩ := kv
    by_cases hk : k = w'
    · subst hk
      by_cases hw : k = w
      · subst hw
        simp [bucketAdd, bucketGet]
      · simp [bucketAdd, bucketGet, hw]
        intro h
        exact absurd h.symm hw
    · by_cases hw : k = w
      · subst hw
        simp [bucketAdd, bucketGet, hk]
      · simp [bucketAdd, bucketGet, hk, hw, ih]

lemma analyzeStep_not_truthy (anchor : PyDate) (method : String)
    (m : Buckets) (page : NotionPage) (h : truthyDate page = false) :
    analyzeStep anchor method m page = m := by
  unfold analyzeStep
  unfold truthyDate at h
  cases hp : get_page_date page.properties with
  | none => simp
  | some s =>
    rw [hp] at h
    simp at h
    simp [h]

lemma analyzeStep_truthy (anchor : PyDate) (method : String)
    (m : Buckets) (page : NotionPage) (h : truthyDate page = true) :
    analyzeStep anchor method m page
      = bucketAdd m (weekOf anchor method page) (attachInfo anchor method page) := by
  unfold analyzeStep weekOf attachInfo
  unfold truthyDate at h
  cases hp : get_page_date page.properties with
  | none => rw [hp] at h; simp at h
  | some s =>
    rw [hp] at h
    simp at h
    simp [h]

lemma bucketGet_foldl (anchor : PyDate) (method : String) :
    ∀ (pages : List NotionPage) (m : Buckets) (w : Nat),
      bucketGet (pages.foldl (analyzeStep anchor method) m) w
        = bucketGet m w ++ classifiedWeek anchor method pages w := by
  intro pages
  induction pages with
  | nil => intro m w; simp [classifiedWeek]
  | cons p ps ih =>
    intro m w
    rw [List.foldl_cons, ih]
    unfold classifiedWeek
    cases ht : truthyDate p with
    | false =>
      rw [analyzeStep_not_truthy anchor method m p ht]
      simp [List.filter_cons, ht]
    | true =>
      rw [analyzeStep_truthy anchor method m p ht]
      rw [bucketGet_bucketAdd]
      by_cases hw : weekOf anchor method p = w
      · simp [List.filter_cons, ht, hw, classifiedWeek]
      · have : (weekOf anchor method p == w) = false := by
          simp [hw]
        simp [List.filter_cons, ht, this, classifiedWeek, hw]
        intro h
        exact absurd h.symm hw

lemma totalBucketCount_bucketAdd (w : Nat) (p : NotionPage) :
    ∀ m : Buckets, totalBucketCount (bucketAdd m w p) = totalBucketCount m + 1 := by
  intro m
  induction m with
  | nil => simp [bucketAdd, totalBucketCount]
  | cons kv rest ih =>
    obtain ⟨k, l⟩ := kv
    by_cases hk : k = w <;> simp [bucketAdd, hk, totalBucketCount] <;>
      simp [totalBucketCount] at ih <;> omega

lemma totalBucketCount_foldl (anchor : PyDate) (method : String) :
    ∀ (pages : List NotionPage) (m : Buckets),
      totalBucketCount (pages.foldl (analyzeStep anchor method) m)
        = totalBucketCount m + (pages.filter (fun p => truthyDate p)).length := by
  intro pages
  induction pages with
  | nil => intro m; simp
  | cons p ps ih =>
    intro m
    rw [List.foldl_cons, ih]
    cases ht : truthyDate p with
    | false =>
      rw [analyzeStep_not_truthy anchor method m p ht]
      simp [List.filter_cons, ht]
    | true =>
      rw [analyzeStep_truthy anchor method m p ht]
      rw [totalBucketCount_bucketAdd]
      simp [List.filter_cons, ht]
      omega

end WeeklyManager

/-! ## Helper lemmas about the block tree and pagination -/

lemma processResults_congr (r1 r2 : String → List Block)
    (hr : ∀ x, r1 x = r2 x) (md cd : Nat) :
    ∀ bs : List Block, processResults r1 md cd bs = processResults r2 md cd bs := by
  intro bs
  induction bs with
  | nil => rfl
  | cons b rest ih =>
    unfold processResults
    rw [ih, hr]

lemma pageLoop_congr (r1 r2 : String → List Block)
    (hr : ∀ x, r1 x = r2 x) (md cd : Nat) :
    ∀ (ps : List (Except NotionAPIError (ApiPage Block))) (acc : List Block),
      pageLoop r1 md cd ps acc = pageLoop r2 md cd ps acc := by
  intro ps
  induction ps with
  | nil => intro acc; rfl
  | cons hd rest ih =>
    intro acc
    cases hd with
    | error e => rfl
    | ok page =>
      unfold pageLoop
      dsimp only
      rw [processResults_congr r1 r2 hr md cd]
      split
      · exact ih _
      · rfl

lemma pageLoop_error_prefix (recur : String → List Block) (md cd : Nat)
    (e : NotionAPIError) (tail : List (Except NotionAPIError (ApiPage Block))) :
    ∀ (ps : List (ApiPage Block)) (acc : List Block),
      (∀ p ∈ ps, p.has_more = true) →
      pageLoop recur md cd (ps.map Except.ok ++ Except.error e :: tail) acc
        = acc ++ (ps.map (fun p => processResults recur md cd p.results)).join := by
  intro ps
  induction ps with
  | nil => intro acc _; simp [pageLoop]
  | cons p rest ih =>
    intro acc hmore
    have hp : p.has_more = true := hmore p (by simp)
    simp only [List.map_cons, List.cons_append]
    unfold pageLoop
    rw [hp]
    simp only [if_true]
    rw [ih _ (fun q hq => hmore q (by simp [hq]))]
    simp [List.join]

lemma pageLoop_chained (recur : String → List Block) (md cd : Nat) :
    ∀ (ps : List (ApiPage Block)) (acc : List Block),
      chainedPages ps = true →
      pageLoop recur md cd (ps.map Except.ok) acc
        = acc ++ (ps.map (fun p => processResults recur md cd p.results)).join := by
  intro ps
  induction ps with
  | nil => intro acc _; simp [pageLoop]
  | cons p rest ih =>
    intro acc hch
    cases rest with
    | nil =>
      unfold chainedPages at hch
      simp at hch
      simp only [List.map_cons, List.map_nil]
      unfold pageLoop
      rw [hch]
      simp
    | cons q qs =>
      unfold chainedPages at hch
      simp at hch
      simp only [List.map_cons]
      unfold pageLoop
      rw [hch.1]
      simp only [if_true]
      have ih' := ih (acc ++ processResults recur md cd p.results) hch.2
      simp only [List.map_cons] at ih'
      rw [ih']
      simp [List.join]

lemma processResults_noRecurse (recur : String → List Block) (md cd : Nat)
    (h : md - 1 ≤ cd) :
    ∀ bs : List Block, processResults recur md cd bs = bs := by
  intro bs
  induction bs with
  | nil => rfl
  | cons b rest ih =>
    unfold processResults
    rw [ih]
    have : ¬ (b.has_children = true ∧ cd < md - 1) := by
      rintro ⟨-, hlt⟩; omega
    rw [if_neg this]

lemma getBlockTreeAux_failEquiv (store : BlockStore) (failOn : String → Bool)
    (err : String → NotionAPIError) :
    ∀ (fuel md cd : Nat) (block_id : String),
      getBlockTreeAux (fun x => if failOn x then [Except.error (err x)] else store x)
          md fuel cd block_id
        = getBlockTreeAux (fun x => if failOn x then [Except.ok ⟨[], false⟩] else store x)
          md fuel cd block_id := by
  intro fuel
  induction fuel with
  | zero => intro md cd id; rfl
  | succ n ih =>
    intro md cd id
    unfold getBlockTreeAux
    by_cases hf : failOn id = true
    · simp only [hf, if_true]
      simp [pageLoop, processResults]
    · simp only [hf, if_false]
      exact pageLoop_congr _ _ (fun x => ih md (cd + 1) x) md cd (store id) []

lemma collectAllPages_chained {α : Type} :
    ∀ (ps : List (ApiPage α)) (acc : List α),
      chainedPages ps = true →
      collectAllPages (ps.map Except.ok) acc
        = Except.ok (acc ++ (ps.map (fun p => p.results)).join) := by
  intro ps
  induction ps with
  | nil => intro acc _; simp [collectAllPages]
  | cons p rest ih =>
    intro acc hch
    cases rest with
    | nil =>
      unfold chainedPages at hch
      simp at hch
      simp only [List.map_cons, List.map_nil]
      unfold collectAllPages
      rw [hch]
      simp
    | cons q qs =>
      unfold chainedPages at hch
      simp at hch
      simp only [List.map_cons]
      unfold collectAllPages
      rw [hch.1]
      simp only [if_true]
      have ih' := ih (acc ++ p.results) hch.2
      simp only [List.map_cons] at ih'
      rw [ih']
      simp [List.join]

lemma collectAllPages_stops {α : Type} (pstop : ApiPage α)
    (hstop : pstop.has_more = false)
    (tail : List (Except NotionAPIError (ApiPage α))) :
    ∀ (pre : List (ApiPage α)) (acc : List α),
      (∀ p ∈ pre, p.has_more = true) →
      collectAllPages (pre.map Except.ok ++ Except.ok pstop :: tail) acc
        = Except.ok (acc ++ ((pre ++ [pstop]).map (fun p => p.results)).join) := by
  intro pre
  induction pre with
  | nil =>
    intro acc _
    simp only [List.map_nil, List.nil_append]
    unfold collectAllPages
    rw [hstop]
    simp
  | cons p rest ih =>
    intro acc hmore
    have hp : p.has_more = true := hmore p (by simp)
    simp only [List.map_cons, List.cons_append]
    unfold collectAllPages
    rw [hp]
    simp only [if_true]
    rw [ih _ (fun q hq => hmore q (by simp [hq]))]
    simp [List.join]

/-! ## Helper lemmas about the monthly first-Monday loop -/

namespace DateUtils

lemma weekday_mk (y m k : Nat) :
    weekday ⟨y, m, k⟩ = (daysBeforeYear y + daysBeforeMonth y m + k + 6) % 7 := rfl

lemma weekday_lt (d : PyDate) : weekday d < 7 := Nat.mod_lt _ (by norm_num)

/-- The first Monday of the month as the spec describes it: day
`1 + (7 - weekday(1st)) % 7`, i.e. the 1st itself when the 1st is a Monday,
else within the following six days. -/
def specFirstMonday (y m : Nat) : PyDate :=
  ⟨y, m, 1 + (7 - weekday ⟨y, m, 1⟩) % 7⟩

lemma firstMondayLoop_spec (fd tgt : PyDate) (y m : Nat) (hm : tgt.month = m) :
    ∀ (fuel k : Nat), (7 - weekday ⟨y, m, k⟩) % 7 ≤ fuel →
      firstMondayLoop fd tgt fuel ⟨y, m, k⟩
        = ⟨y, m, k + (7 - weekday ⟨y, m, k⟩) % 7⟩ := by
  intro fuel
  induction fuel with
  | zero =>
    intro k h
    have hlt := weekday_lt ⟨y, m, k⟩
    have h0 : (7 - weekday ⟨y, m, k⟩) % 7 = 0 := by omega
    rw [h0]
    rfl
  | succ n ih =>
    intro k h
    by_cases hw : weekday ⟨y, m, k⟩ = 0
    · have h0 : (7 - weekday ⟨y, m, k⟩) % 7 = 0 := by rw [hw]
      rw [h0]
      unfold firstMondayLoop
      rw [if_pos hw]
      rfl
    · unfold firstMondayLoop
      rw [if_neg hw]
      dsimp only
      have hcond : ¬ ((⟨y, m, k + 1⟩ : PyDate).month ≠ tgt.month) := by
        simp [hm]
      rw [if_neg hcond]
      have hlt := weekday_lt ⟨y, m, k⟩
      have hstep : weekday ⟨y, m, k + 1⟩ = (weekday ⟨y, m, k⟩ + 1) % 7 := by
        rw [weekday_mk, weekday_mk]
        omega
      have hd : (7 - weekday ⟨y, m, k + 1⟩) % 7 = (7 - weekday ⟨y, m, k⟩) % 7 - 1 := by
        omega
      rw [ih (k + 1) (by omega)]
      have : k + 1 + (7 - weekday ⟨y, m, k + 1⟩) % 7
          = k + (7 - weekday ⟨y, m, k⟩) % 7 := by omega
      rw [this]

lemma first_monday_eq (d : PyDate) :
    first_monday d = specFirstMonday d.year d.month := by
  unfold first_monday specFirstMonday
  dsimp only
  have hb : (7 - weekday ⟨d.year, d.month, 1⟩) % 7 ≤ 31 := by
    have := Nat.mod_lt (7 - weekday ⟨d.year, d.month, 1⟩) (show 0 < 7 by norm_num)
    omega
  rw [firstMondayLoop_spec ⟨d.year, d.month, 1⟩ d d.year d.month rfl 31 1 hb]

lemma specFirstMonday_is_monday (y m : Nat) :
    weekday (specFirstMonday y m) = 0 := by
  unfold specFirstMonday
  rw [weekday_mk, weekday_mk]
  omega

lemma specFirstMonday_day_bounds (y m : Nat) :
    1 ≤ (specFirstMonday y m).day ∧ (specFirstMonday y m).day ≤ 7 := by
  unfold specFirstMonday
  dsimp only
  have := Nat.mod_lt (7 - weekday ⟨y, m, 1⟩) (show 0 < 7 by norm_num)
  omega

lemma specFirstMonday_minimal (y m : Nat) :
    ∀ k, 1 ≤ k → k < (specFirstMonday y m).day → weekday ⟨y, m, k⟩ ≠ 0 := by
  intro k h1 h2
  unfold specFirstMonday at h2
  dsimp only at h2
  rw [weekday_mk] at h2 ⊢
  intro hk
  omega

end DateUtils

/-! ## Claim theorems -/

/-- Claim C4: under the project-based policy with anchor `a`, `week(d) = 0`
iff `d < a`, otherwise `week(d) = (d - a) / 7 + 1`; for `w ≥ 1` the derived
inclusive range is `[a + (w-1)*7 days, a + (w-1)*7 days + 6 days]`; and with
anchor 2025-07-01: 2025-07-01 is week 1 with range 2025-07-01..2025-07-07,
2025-07-08 is week 2, 2025-06-30 is week 0. -/
theorem c4_project_week_spec (anchor target_date : PyDate)
    (ha : ValidDate anchor) (hd : ValidDate target_date)
    (w : Nat) (hw : 1 ≤ w) :
    (DateUtils.get_week_number_project_based anchor target_date = 0
      ↔ toordinal target_date < toordinal anchor)
    ∧ (toordinal anchor ≤ toordinal target_date →
        DateUtils.get_week_number_project_based anchor target_date
          = (toordinal target_date - toordinal anchor) / 7 + 1)
    ∧ (∃ s e : PyDate,
        (DateUtils.get_week_summary anchor w).start_date = some s
        ∧ (DateUtils.get_week_summary anchor w).end_date = some e
        ∧ toordinal s = toordinal anchor + 7 * (w - 1)
        ∧ toordinal e = toordinal s + 6
        ∧ ValidDate s ∧ ValidDate e)
    ∧ DateUtils.get_week_number_project_based DateUtils.PROJECT_START_DATE ⟨2025, 7, 1⟩ = 1
    ∧ (DateUtils.get_week_summary DateUtils.PROJECT_START_DATE 1).start_date = some ⟨2025, 7, 1⟩
    ∧ (DateUtils.get_week_summary DateUtils.PROJECT_START_DATE 1).end_date = some ⟨2025, 7, 7⟩
    ∧ DateUtils.get_week_number_project_based DateUtils.PROJECT_START_DATE ⟨2025, 7, 8⟩ = 2
    ∧ DateUtils.get_week_number_project_based DateUtils.PROJECT_START_DATE ⟨2025, 6, 30⟩ = 0 := by
  refine ⟨?_, ?_, ?_, by decide, by decide, by decide, by decide, by decide⟩
  · unfold DateUtils.get_week_number_project_based
    by_cases hlt : toordinal target_date < toordinal anchor
    · rw [if_pos hlt]
      simp [hlt]
    · rw [if_neg hlt]
      simp [hlt]
  · intro hle
    unfold DateUtils.get_week_number_project_based
    rw [if_neg (by omega)]
  · have hne : ¬ (w = 0) := by omega
    have hs := addDays_spec anchor ha (7 * (w - 1))
    have he := addDays_spec (addDays anchor (7 * (w - 1))) hs.1 6
    refine ⟨addDays anchor (7 * (w - 1)), addDays (addDays anchor (7 * (w - 1))) 6,
      ?_, ?_, ?_, ?_, hs.1, he.1⟩
    · unfold DateUtils.get_week_summary
      rw [if_neg hne]
    · unfold DateUtils.get_week_summary
      rw [if_neg hne]
    · omega
    · omega

/-- Witness for C4 at anchor 2025-07-01, date 2025-07-08, week 2. -/
theorem c4_project_week_witness :
    DateUtils.get_week_number_project_based ⟨2025, 7, 1⟩ ⟨2025, 7, 8⟩
      = (toordinal ⟨2025, 7, 8⟩ - toordinal ⟨2025, 7, 1⟩) / 7 + 1 :=
  (c4_project_week_spec ⟨2025, 7, 1⟩ ⟨2025, 7, 8⟩ (by decide) (by decide)
    2 (by decide)).2.1 (by decide)

/-- Claim C5: under the monthly policy, the loop's `first_monday` is the
first Monday on or after the 1st of the date's month (the no-Monday
fallback never fires: the first Monday is within days 1–7); dates before
it are week 1, otherwise `week = (d - firstMonday) / 7 + 1`; the monthly
week number is always ≥ 1. -/
theorem c5_monthly_week_spec (d : PyDate) (hv : ValidDate d) :
    DateUtils.first_monday d = DateUtils.specFirstMonday d.year d.month
    ∧ weekday (DateUtils.specFirstMonday d.year d.month) = 0
    ∧ (DateUtils.specFirstMonday d.year d.month).year = d.year
    ∧ (DateUtils.specFirstMonday d.year d.month).month = d.month
    ∧ 1 ≤ (DateUtils.specFirstMonday d.year d.month).day
    ∧ (DateUtils.specFirstMonday d.year d.month).day ≤ 7
    ∧ ValidDate (DateUtils.specFirstMonday d.year d.month)
    ∧ (∀ k, 1 ≤ k → k < (DateUtils.specFirstMonday d.year d.month).day →
        weekday ⟨d.year, d.month, k⟩ ≠ 0)
    ∧ (toordinal d < toordinal (DateUtils.specFirstMonday d.year d.month) →
        DateUtils.get_week_number_monthly d = 1)
    ∧ (toordinal (DateUtils.specFirstMonday d.year d.month) ≤ toordinal d →
        DateUtils.get_week_number_monthly d
          = (toordinal d - toordinal (DateUtils.specFirstMonday d.year d.month)) / 7 + 1)
    ∧ 1 ≤ DateUtils.get_week_number_monthly d := by
  obtain ⟨hb1, hb2⟩ := DateUtils.specFirstMonday_day_bounds d.year d.month
  obtain ⟨hy, hm1, hm12, -, -⟩ := hv
  refine ⟨DateUtils.first_monday_eq d, DateUtils.specFirstMonday_is_monday _ _,
    rfl, rfl, hb1, hb2, ?_, DateUtils.specFirstMonday_minimal _ _, ?_, ?_, ?_⟩
  · have h28 := daysInMonth_ge (DateUtils.specFirstMonday d.year d.month).year
      (DateUtils.specFirstMonday d.year d.month).month
    exact ⟨hy, hm1, hm12, hb1, by omega⟩
  · intro hlt
    unfold DateUtils.get_week_number_monthly
    dsimp only
    rw [DateUtils.first_monday_eq d, if_pos hlt]
  · intro hle
    unfold DateUtils.get_week_number_monthly
    dsimp only
    rw [DateUtils.first_monday_eq d, if_neg (by omega)]
  · unfold DateUtils.get_week_number_monthly
    dsimp only
    split
    · omega
    · omega

/-- Witness for C5 at 2025-08-20 (first Monday of August 2025 is the 4th). -/
theorem c5_monthly_week_witness :
    DateUtils.first_monday ⟨2025, 8, 20⟩
      = DateUtils.specFirstMonday (2025 : Nat) (8 : Nat)
    ∧ 1 ≤ DateUtils.get_week_number_monthly ⟨2025, 8, 20⟩ :=
  ⟨(c5_monthly_week_spec ⟨2025, 8, 20⟩ (by decide)).1,
    (c5_monthly_week_spec ⟨2025, 8, 20⟩ (by decide)).2.2.2.2.2.2.2.2.2.2⟩

/-- Counterexample to claim C6: in May 2025 the 1st is a Thursday and the
first Monday is the 5th, but the code classifies the 5th as week 1 (not 2,
as claimed) and the 12th as week 2 (not 3): a date equal to the first
Monday has `days_diff = 0`, so week `0 // 7 + 1 = 1`. -/
theorem c6_monthly_concrete_counterexample :
    weekday ⟨2025, 5, 1⟩ = 3
    ∧ DateUtils.first_monday ⟨2025, 5, 5⟩ = ⟨2025, 5, 5⟩
    ∧ DateUtils.get_week_number_monthly ⟨2025, 5, 5⟩ = 1
    ∧ DateUtils.get_week_number_monthly ⟨2025, 5, 5⟩ ≠ 2
    ∧ DateUtils.get_week_number_monthly ⟨2025, 5, 12⟩ = 2
    ∧ DateUtils.get_week_number_monthly ⟨2025, 5, 12⟩ ≠ 3 := by
  decide

/-- Claim C6 as amended: in a month whose 1st is a Thursday (May 2025, so
the first Monday is the 5th), the 1st is week 1, the 5th is also week 1
(the first Monday itself starts no new week), and the 12th is week 2. -/
theorem c6_monthly_concrete_amended :
    weekday ⟨2025, 5, 1⟩ = 3
    ∧ DateUtils.first_monday ⟨2025, 5, 1⟩ = ⟨2025, 5, 5⟩
    ∧ DateUtils.get_week_number_monthly ⟨2025, 5, 1⟩ = 1
    ∧ DateUtils.get_week_number_monthly ⟨2025, 5, 5⟩ = 1
    ∧ DateUtils.get_week_number_monthly ⟨2025, 5, 12⟩ = 2 := by
  decide

/-- Claim C9: under the ISO policy, the bucket key is exactly the
week-number component of the ISO `(year, week)` pair, the ISO year being
discarded; two dates in different ISO years sharing an ISO week number get
the same bucket key. -/
theorem c9_iso_week_key (anchor : PyDate) (s1 s2 : String) (d1 d2 : PyDate)
    (h1 : DateUtils.parse_notion_date s1 = some d1)
    (h2 : DateUtils.parse_notion_date s2 = some d2)
    (hy : (DateUtils.isocalendar d1).1 ≠ (DateUtils.isocalendar d2).1)
    (hw : (DateUtils.isocalendar d1).2 = (DateUtils.isocalendar d2).2) :
    (DateUtils.get_date_info anchor s1 "iso").2 = (DateUtils.isocalendar d1).2
    ∧ (DateUtils.get_date_info anchor s2 "iso").2 = (DateUtils.isocalendar d2).2
    ∧ (DateUtils.get_date_info anchor s1 "iso").2
        = (DateUtils.get_date_info anchor s2 "iso").2 := by
  have e1 : (DateUtils.get_date_info anchor s1 "iso").2 = (DateUtils.isocalendar d1).2 := by
    simp [DateUtils.get_date_info, DateUtils.get_week_number_iso, h1]
  have e2 : (DateUtils.get_date_info anchor s2 "iso").2 = (DateUtils.isocalendar d2).2 := by
    simp [DateUtils.get_date_info, DateUtils.get_week_number_iso, h2]
  exact ⟨e1, e2, by rw [e1, e2, hw]⟩

/-- Witness for C9: 2024-01-03 (ISO 2024-W01) and 2025-01-01 (ISO 2025-W01)
collide in bucket 1. -/
theorem c9_iso_week_key_witness :
    (DateUtils.get_date_info ⟨2025, 7, 1⟩ "2024-01-03" "iso").2
      = (DateUtils.get_date_info ⟨2025, 7, 1⟩ "2025-01-01" "iso").2 :=
  (c9_iso_week_key ⟨2025, 7, 1⟩ "2024-01-03" "2025-01-01" ⟨2024, 1, 3⟩ ⟨2025, 1, 1⟩
    (by decide) (by decide) (by decide) (by decide)).2.2

/-- A store whose root listing has a good first page (block `a`,
`has_more = true`) and then fails on the second page. -/
def c1failStore : BlockStore := fun x =>
  if x = "root" then
    [Except.ok ⟨[Block.mk "a" "paragraph" false "" []], true⟩,
     Except.error ⟨500, "server error"⟩]
  else [Except.ok ⟨[], false⟩]

/-- The same store with the failing page replaced by a good page carrying
block `b`. -/
def c1okStore : BlockStore := fun x =>
  if x = "root" then
    [Except.ok ⟨[Block.mk "a" "paragraph" false "" []], true⟩,
     Except.ok ⟨[Block.mk "b" "paragraph" false "" []], false⟩]
  else [Except.ok ⟨[], false⟩]

/-- Counterexample to claim C1: when a page of the root's own
children listing fails, `get_block_tree` does not propagate the failure —
the `except NotionAPIError` around the top-level page loop catches it,
`break`s, and returns the partial result `[a]` (the full listing would be
`[a, b]`).  A partial tree *is* returned and the caller sees no error. -/
theorem c1_root_failure_counterexample :
    get_block_tree c1failStore "root" 10 0 = [Block.mk "a" "paragraph" false "" []]
    ∧ get_block_tree c1okStore "root" 10 0
        = [Block.mk "a" "paragraph" false "" [],
           Block.mk "b" "paragraph" false "" []]
    ∧ get_block_tree c1failStore "root" 10 0 ≠ get_block_tree c1okStore "root" 10 0 := by
  refine ⟨rfl, rfl, ?_⟩
  intro h
  exact absurd (congrArg List.length h) (by decide)

/-- Claim C1 as amended: a failure while fetching a page of the node's own
children listing is caught and logged like any other; the page loop breaks
and the children accumulated from the pages before the failing one are
returned as a partial result (the empty list when the first page fails).
Nothing propagates to the caller. -/
theorem c1_root_failure_amended (store : BlockStore) (block_id : String)
    (max_depth current_depth : Nat) (ps : List (ApiPage Block))
    (e : NotionAPIError) (tail : List (Except NotionAPIError (ApiPage Block)))
    (hdepth : current_depth < max_depth)
    (hstore : store block_id = ps.map Except.ok ++ Except.error e :: tail)
    (hmore : ∀ p ∈ ps, p.has_more = true) :
    get_block_tree store block_id max_depth current_depth
      = (ps.map (fun p =>
          processResults (fun cid => get_block_tree store cid max_depth (current_depth + 1))
            max_depth current_depth p.results)).join := by
  obtain ⟨n, hn⟩ : ∃ n, max_depth - current_depth = n + 1 :=
    ⟨max_depth - current_depth - 1, by omega⟩
  have hrec : ∀ cid, getBlockTreeAux store max_depth n (current_depth + 1) cid
      = get_block_tree store cid max_depth (current_depth + 1) := by
    intro cid
    unfold get_block_tree
    rw [show max_depth - (current_depth + 1) = n by omega]
  show getBlockTreeAux store max_depth (max_depth - current_depth)
    current_depth block_id = _
  rw [hn]
  show pageLoop (fun cid => getBlockTreeAux store max_depth n (current_depth + 1) cid)
    max_depth current_depth (store block_id) [] = _
  rw [hstore, pageLoop_error_prefix _ max_depth current_depth e tail ps [] hmore,
    List.nil_append]
  apply congrArg List.join
  apply List.map_congr_left
  intro p _
  exact processResults_congr _ _ hrec max_depth current_depth p.results

/-- Witness for the amended C1 at the concrete failing store. -/
theorem c1_root_failure_amended_witness :
    get_block_tree c1failStore "root" 10 0
      = (List.map
          (fun p : ApiPage Block =>
            processResults (fun cid => get_block_tree c1failStore cid 10 1)
              10 0 p.results)
          [⟨[Block.mk "a" "paragraph" false "" []], true⟩]).join :=
  c1_root_failure_amended c1failStore "root" 10 0
    [⟨[Block.mk "a" "paragraph" false "" []], true⟩] ⟨500, "server error"⟩ []
    (by decide) rfl (by simp)

/-- A store whose root node `r` has one direct child flagged as having
children. -/
def c2store : BlockStore := fun x =>
  if x = "r" then [Except.ok ⟨[Block.mk "a" "paragraph" true "" []], false⟩]
  else [Except.ok ⟨[], false⟩]

/-- Counterexample to claim C2: `get_block_tree(id, max_depth=0)` returns
`[]` immediately (`current_depth >= max_depth`), not the node's direct
children; it is `max_depth=1` that returns every direct child with no
children populated. -/
theorem c2_depth_zero_counterexample :
    get_block_tree c2store "r" 0 0 = []
    ∧ get_block_tree c2store "r" 1 0 = [Block.mk "a" "paragraph" true "" []]
    ∧ get_block_tree c2store "r" 0 0 ≠ [Block.mk "a" "paragraph" true "" []] := by
  refine ⟨rfl, rfl, ?_⟩
  intro h
  exact absurd (congrArg List.length h) (by decide)

/-- Claim C2 as amended: the depth budget "0 levels below the children" is
`max_depth = 1` in the code's convention (`max_depth` counts the
child-listing itself as one level).  `get_block_tree(id, max_depth=1)`
returns the complete ordered concatenation of the direct children across
pages, each child kept exactly as the store served it — no recursion
regardless of `has_children`, so no children are populated — while
`max_depth = 0` (more generally `max_depth ≤ current_depth`) returns `[]`
without consulting the store. -/
theorem c2_depth_zero_amended (store : BlockStore) (block_id : String)
    (ps : List (ApiPage Block))
    (hstore : store block_id = ps.map Except.ok)
    (hch : chainedPages ps = true) :
    get_block_tree store block_id 1 0 = (ps.map (fun p => p.results)).join
    ∧ ∀ (store2 : BlockStore) (id2 : String) (md cd : Nat),
        md ≤ cd → get_block_tree store2 id2 md cd = [] := by
  constructor
  · unfold get_block_tree getBlockTreeAux
    rw [hstore, pageLoop_chained _ 1 0 ps [] hch, List.nil_append]
    apply congrArg List.join
    apply List.map_congr_left
    intro p _
    exact processResults_noRecurse _ 1 0 (by omega) p.results
  · intro store2 id2 md cd hle
    unfold get_block_tree
    rw [show md - cd = 0 by omega]
    rfl

/-- Witness for the amended C2 at the concrete one-child store. -/
theorem c2_depth_zero_amended_witness :
    get_block_tree c2store "r" 1 0
      = (List.map (fun p : ApiPage Block => p.results)
          [⟨[Block.mk "a" "paragraph" true "" []], false⟩]).join :=
  (c2_depth_zero_amended c2store "r" [⟨[Block.mk "a" "paragraph" true "" []], false⟩]
    rfl (by decide)).1

/-- A store where descendant `c` of the root fails, its sibling `s`
succeeds with one grandchild. -/
def c3demoStore : BlockStore := fun x =>
  if x = "root" then
    [Except.ok ⟨[Block.mk "c" "paragraph" true "" [],
                 Block.mk "s" "paragraph" true "" []], false⟩]
  else if x = "c" then [Except.error ⟨500, "boom"⟩]
  else if x = "s" then
    [Except.ok ⟨[Block.mk "leaf" "paragraph" false "" []], false⟩]
  else [Except.ok ⟨[], false⟩]

/-- Claim C3: a failure fetching the children of specific descendant ids is
swallowed — replacing, for any set of failing ids, their listings by errors
yields exactly the tree obtained when those ids have empty children
listings, for every store, node and depth: the failing children stay in the
result with empty children lists and nothing else changes, so sibling
subtrees are fully populated and distinct failures cannot
cross-contaminate.  Concretely, with descendant `c` failing, `c` is kept
with no children while its sibling `s` keeps its full subtree. -/
theorem c3_descendant_failure_isolated :
    (∀ (store : BlockStore) (failOn : String → Bool)
        (err : String → NotionAPIError) (block_id : String)
        (max_depth current_depth : Nat),
      get_block_tree
          (fun x => if failOn x then [Except.error (err x)] else store x)
          block_id max_depth current_depth
        = get_block_tree
            (fun x => if failOn x then [Except.ok ⟨[], false⟩] else store x)
            block_id max_depth current_depth)
    ∧ get_block_tree c3demoStore "root" 5 0
        = [Block.mk "c" "paragraph" true "" [],
           Block.mk "s" "paragraph" true "" [Block.mk "leaf" "paragraph" false "" []]] := by
  constructor
  · intro store failOn err block_id max_depth current_depth
    unfold get_block_tree
    exact getBlockTreeAux_failEquiv store failOn err
      (max_depth - current_depth) max_depth current_depth block_id
  · rfl

/-- Claim C10: the paginated fetchers return the ordered concatenation of
the per-page `results` of a well-formed paged listing — the single
unpaginated equivalent — and the loop consumes pages exactly until the
first `has_more = false` page, ignoring anything the store could serve
beyond it. -/
theorem c10_pagination_concat (α : Type) (ps : List (ApiPage α))
    (hch : chainedPages ps = true)
    (hcap : ∀ p ∈ ps, p.results.length ≤ 100) :
    query_database_all (ps.map Except.ok) = Except.ok ((ps.map (fun p => p.results)).join)
    ∧ (∀ qs : List (ApiPage Block), chainedPages qs = true →
        get_page_content_flat (qs.map Except.ok)
          = Except.ok ((qs.map (fun p => p.results)).join))
    ∧ (∀ (pre : List (ApiPage α)) (pstop : ApiPage α)
          (tail : List (Except NotionAPIError (ApiPage α))),
        (∀ p ∈ pre, p.has_more = true) → pstop.has_more = false →
        query_database_all (pre.map Except.ok ++ Except.ok pstop :: tail)
          = Except.ok (((pre ++ [pstop]).map (fun p => p.results)).join)) := by
  refine ⟨?_, ?_, ?_⟩
  · unfold query_database_all
    rw [collectAllPages_chained ps [] hch, List.nil_append]
  · intro qs hqs
    unfold get_page_content_flat
    rw [collectAllPages_chained qs [] hqs, List.nil_append]
  · intro pre pstop tail hmore hstop
    unfold query_database_all
    rw [collectAllPages_stops pstop hstop tail pre [] hmore, List.nil_append]

/-- Witness for C10: two pages of naturals concatenate in order, and a
trailing page after `has_more = false` is ignored. -/
theorem c10_pagination_concat_witness :
    query_database_all
        (([⟨[1, 2], true⟩, ⟨[3], false⟩] : List (ApiPage Nat)).map Except.ok)
      = Except.ok [1, 2, 3] :=
  (c10_pagination_concat Nat [⟨[1, 2], true⟩, ⟨[3], false⟩]
    (by decide) (by decide)).1

lemma attachInfo_week_number (anchor : PyDate) (method : String)
    (page : NotionPage) (h : WeeklyManager.truthyDate page = true) :
    ∃ di : DateInfo,
      (WeeklyManager.attachInfo anchor method page).date_info = some di
      ∧ di.week_number = WeeklyManager.weekOf anchor method page := by
  unfold WeeklyManager.truthyDate at h
  unfold WeeklyManager.attachInfo WeeklyManager.weekOf
  cases hp : get_page_date page.properties with
  | none => rw [hp] at h; simp at h
  | some s =>
    exact ⟨_, rfl, rfl⟩

/-- Claim C8: `analyze_pages_by_week` fully clears and rebuilds the
week-bucket mapping: its result never depends on the prior mapping, and
each bucket is exactly the truthy-dated input pages classified to that
week, in input order, with `_date_info` attached — so re-classification is
a total replace and every dated page sits in exactly one bucket. -/
theorem c8_classify_total_replace (anchor : PyDate) (method : String)
    (prior : Buckets) (pages : List NotionPage) :
    WeeklyManager.analyze_pages_by_week anchor method prior pages
      = WeeklyManager.analyze_pages_by_week anchor method [] pages
    ∧ (∀ w, bucketGet (WeeklyManager.analyze_pages_by_week anchor method prior pages) w
        = WeeklyManager.classifiedWeek anchor method pages w) := by
  constructor
  · rfl
  · intro w
    unfold WeeklyManager.analyze_pages_by_week clearBuckets
    rw [WeeklyManager.bucketGet_foldl anchor method pages [] w]
    rfl

/-- Counterexample to claim C7: a document whose date property is present
but malformed (`"not-a-date"`, truthy yet unparseable) is *not* excluded
from all buckets — `get_date_info` returns week 0 for it and
`analyze_pages_by_week` appends it to bucket 0. -/
theorem c7_malformed_date_counterexample :
    DateUtils.parse_notion_date "not-a-date" = none
    ∧ WeeklyManager.truthyDate
        ⟨"p-mal", [("날짜", ⟨"date", some "not-a-date"⟩)], none⟩ = true
    ∧ (bucketGet
        (WeeklyManager.analyze_pages_by_week DateUtils.PROJECT_START_DATE "project" []
          [⟨"p-mal", [("날짜", ⟨"date", some "not-a-date"⟩)], none⟩]) 0).length = 1 := by
  refine ⟨by decide, by decide, ?_⟩
  rfl

/-- Claim C7 as amended: classification is one pass; a document with no
date property (or an empty date string) is silently excluded from every
bucket — across all buckets exactly the truthy-dated documents are stored,
each exactly once; a truthy-dated document lands in the bucket of its
computed week and every stored document's attached week number equals its
bucket key (so no document is in two buckets); but a document whose date
string is truthy yet unparseable is classified to week 0 (its
`get_date_info` week is 0) and stored in bucket 0, not excluded. -/
theorem c7_undated_excluded_amended (anchor : PyDate) (method : String)
    (prior : Buckets) (pages : List NotionPage) :
    WeeklyManager.totalBucketCount (WeeklyManager.analyze_pages_by_week anchor method prior pages)
      = (pages.filter (fun p => WeeklyManager.truthyDate p)).length
    ∧ (∀ p ∈ pages, WeeklyManager.truthyDate p = true →
        WeeklyManager.attachInfo anchor method p
          ∈ bucketGet (WeeklyManager.analyze_pages_by_week anchor method prior pages)
              (WeeklyManager.weekOf anchor method p))
    ∧ (∀ w b, b ∈ bucketGet (WeeklyManager.analyze_pages_by_week anchor method prior pages) w →
        ∃ di : DateInfo, b.date_info = some di ∧ di.week_number = w)
    ∧ (∀ s : String, ¬ s = "" → DateUtils.parse_notion_date s = none →
        (DateUtils.get_date_info anchor s method).2 = 0) := by
  have hchar : ∀ w, bucketGet (WeeklyManager.analyze_pages_by_week anchor method prior pages) w
      = WeeklyManager.classifiedWeek anchor method pages w := by
    intro w
    unfold WeeklyManager.analyze_pages_by_week clearBuckets
    rw [WeeklyManager.bucketGet_foldl anchor method pages [] w]
    rfl
  refine ⟨?_, ?_, ?_, ?_⟩
  · unfold WeeklyManager.analyze_pages_by_week clearBuckets
    rw [WeeklyManager.totalBucketCount_foldl anchor method pages []]
    simp [WeeklyManager.totalBucketCount]
  · intro p hp ht
    rw [hchar]
    unfold WeeklyManager.classifiedWeek
    apply List.mem_map_of_mem
    rw [List.mem_filter]
    exact ⟨hp, by simp [ht]⟩
  · intro w b hb
    rw [hchar] at hb
    unfold WeeklyManager.classifiedWeek at hb
    obtain ⟨q, hq, hqb⟩ := List.mem_map.mp hb
    rw [List.mem_filter] at hq
    have hqt : WeeklyManager.truthyDate q = true := by
      have := hq.2
      simp at this
      exact this.1
    have hqw : WeeklyManager.weekOf anchor method q = w := by
      have := hq.2
      simp at this
      exact this.2
    obtain ⟨di, hdi, hdw⟩ := attachInfo_week_number anchor method q hqt
    exact ⟨di, by rw [← hqb]; exact hdi, by rw [hdw, hqw]⟩
  · intro s hs hparse
    unfold DateUtils.get_date_info
    rw [hparse]

/-- Witness for the amended C7: with one undated, one malformed-dated and
one well-dated document, exactly two documents are stored overall, and the
well-dated one sits in its week's bucket. -/
theorem c7_undated_excluded_witness :
    WeeklyManager.totalBucketCount
        (WeeklyManager.analyze_pages_by_week DateUtils.PROJECT_START_DATE "project" []
          [⟨"p-no", [("이름", ⟨"title", none⟩)], none⟩,
           ⟨"p-mal", [("날짜", ⟨"date", some "not-a-date"⟩)], none⟩,
           ⟨"p-good", [("날짜", ⟨"date", some "2025-07-08"⟩)], none⟩])
      = (List.filter (fun p => WeeklyManager.truthyDate p)
          [⟨"p-no", [("이름", ⟨"title", none⟩)], none⟩,
           ⟨"p-mal", [("날짜", ⟨"date", some "not-a-date"⟩)], none⟩,
           ⟨"p-good", [("날짜", ⟨"date", some "2025-07-08"⟩)], none⟩]).length
    ∧ WeeklyManager.attachInfo DateUtils.PROJECT_START_DATE "project"
          ⟨"p-good", [("날짜", ⟨"date", some "2025-07-08"⟩)], none⟩
        ∈ bucketGet
            (WeeklyManager.analyze_pages_by_week DateUtils.PROJECT_START_DATE "project" []
              [⟨"p-no", [("이름", ⟨"title", none⟩)], none⟩,
               ⟨"p-mal", [("날짜", ⟨"date", some "not-a-date"⟩)], none⟩,
               ⟨"p-good", [("날짜", ⟨"date", some "2025-07-08"⟩)], none⟩])
            (WeeklyManager.weekOf DateUtils.PROJECT_START_DATE "project"
              ⟨"p-good", [("날짜", ⟨"date", some "2025-07-08"⟩)], none⟩) :=
  ⟨(c7_undated_excluded_amended DateUtils.PROJECT_START_DATE "project" []
      [⟨"p-no", [("이름", ⟨"title", none⟩)], none⟩,
       ⟨"p-mal", [("날짜", ⟨"date", some "not-a-date"⟩)], none⟩,
       ⟨"p-good", [("날짜", ⟨"date", some "2025-07-08"⟩)], none⟩]).1,
   (c7_undated_excluded_amended DateUtils.PROJECT_START_DATE "project" []
      [⟨"p-no", [("이름", ⟨"title", none⟩)], none⟩,
       ⟨"p-mal", [("날짜", ⟨"date", some "not-a-date"⟩)], none⟩,
       ⟨"p-good", [("날짜", ⟨"date", some "2025-07-08"⟩)], none⟩]).2.1
     ⟨"p-good", [("날짜", ⟨"date", some "2025-07-08"⟩)], none⟩
     (by decide) (by decide)⟩
